import Mathlib

/-
  Verification of the generated HelixDB query handlers in src/queries.rs and
  src/.helix/dev/helix-container/src/queries.rs against the engine
  specification.

  The handlers themselves are translated directly from the Rust source.  The
  engine primitives they call (seed, filter, upsert, add_edge, order, range,
  transactions) live in the external helix_db crate and are therefore modelled
  from the specification; each such definition carries a doc comment starting
  with "Modelled from the spec:".
-/

namespace HelixDB

/-- Property values: the tagged-union value type of the record store
(§3 of the spec: string, integer variants, float variants, boolean,
date/time).  The handlers only store and compare floats and timestamps,
never compute on them, so a float is embedded as its 64-bit pattern
(a natural number) and a timestamp as an integer epoch offset. -/
inductive Value where
  | vStr (s : String)
  | vInt (n : Int)
  | vF64 (bits : Nat)
  | vDate (epochMs : Int)
  | vBool (b : Bool)
  | vEmpty
deriving DecidableEq, Repr

/-- A node record: unique identifier, type label, property mapping (§3). -/
structure Node where
  id : Nat
  label : String
  props : List (String × Value)
deriving DecidableEq, Repr

/-- An edge record: unique identifier, type label and the two endpoint ids
(§3; edges hold ids, not pointers). -/
structure Edge where
  id : Nat
  label : String
  fromId : Nat
  toId : Nat
deriving DecidableEq, Repr

/-- The record store visible to one transaction: node records, edge records
and a fresh-id counter standing for the store's id generator. -/
structure Store where
  nodes : List Node
  edges : List Edge
  nextId : Nat
deriving DecidableEq, Repr

/-- Error kinds of §7 that the modelled operators can produce. -/
inductive GraphError where
  | notFound
  | ambiguous
  | new (msg : String)
deriving DecidableEq, Repr

/-- Lookup of a property by name in a property mapping (first match). -/
def lookupProp (ps : List (String × Value)) (k : String) : Option Value :=
  (ps.find? (fun p => decide (p.1 = k))).map (fun p => p.2)

/-- get_property on a node. -/
def getProp (n : Node) (k : String) : Option Value :=
  lookupProp n.props k

/-- The property-equality predicate used by every generated filter_ref
closure: the property is present and equal to the given value. -/
def propEq (k : String) (v : Value) (n : Node) : Bool :=
  match getProp n k with
  | some w => decide (w = v)
  | none => false

/-- Modelled from the spec: the n_from_type seed operator of helix_db
(§4.3 Seed: all nodes of type T). -/
def nFromType (s : Store) (lbl : String) : List Node :=
  s.nodes.filter (fun n => decide (n.label = lbl))

/-- The filter_ref stage as generated for property-equality predicates. -/
def filterByProp (k : String) (v : Value) (ns : List Node) : List Node :=
  ns.filter (propEq k v)

/-- Modelled from the spec: the n_from_index seed operator of helix_db
(§4.3 Seed by secondary-index exact-match lookup; a unique index returns
zero or one record, §3). -/
def nFromIndex (s : Store) (lbl field : String) (v : Value) : List Node :=
  (filterByProp field v (nFromType s lbl)).take 1

/-- Modelled from the spec: collect_to_obj materializes a traversal into a
single object; an empty traversal is the NotFound error of §7. -/
def collectToObj (xs : List α) : Except GraphError α :=
  match xs with
  | [] => .error .notFound
  | x :: _ => .ok x

/-- Overwrite one field in a property mapping: replace the first entry
with that name, or append the field if absent. -/
def setProp : List (String × Value) → String → Value → List (String × Value)
  | [], k, v => [(k, v)]
  | p :: ps, k, v => if p.1 = k then (k, v) :: ps else p :: setProp ps k v

/-- Modelled from the spec: the field-by-field merge of the upsert
algorithm (§4.5: overwrite the given fields, preserve the rest). -/
def mergeProps (ps : List (String × Value)) (fields : List (String × Value)) :
    List (String × Value) :=
  fields.foldl (fun acc f => setProp acc f.1 f.2) ps

/-- Merge the given fields into one record, keeping id and label. -/
def mergeNode (fields : List (String × Value)) (n : Node) : Node :=
  { n with props := mergeProps n.props fields }

/-- Modelled from the spec: the upsert_n operator of helix_db (§4.5).
Given the match set of a prior seed/filter stage: insert a fresh record
with the given fields when the match set is empty; otherwise merge the
fields into every matched record in place (the observed multi-match
behavior of the design notes applies the merge to every matched record
without surfacing an error).  Returns the updated store and the list of
inserted or updated records. -/
def upsertN (s : Store) (ms : List Node) (lbl : String)
    (fields : List (String × Value)) : Store × List Node :=
  match ms with
  | [] =>
    let n : Node := { id := s.nextId, label := lbl, props := fields }
    ({ s with nodes := s.nodes ++ [n], nextId := s.nextId + 1 }, [n])
  | _ =>
    ({ s with nodes := s.nodes.map (fun n =>
        if ms.any (fun m => decide (m.id = n.id)) then mergeNode fields n else n) },
     ms.map (mergeNode fields))

/-- Does a node with this id exist in the current snapshot? -/
def containsNode (s : Store) (i : Nat) : Bool :=
  s.nodes.any (fun n => decide (n.id = i))

/-- Find the node with this id. -/
def findNode (s : Store) (i : Nat) : Option Node :=
  s.nodes.find? (fun n => decide (n.id = i))

/-- Modelled from the spec: the add_e / add_edge mutation operator of
helix_db (§4.3, §3 invariant: both endpoints must exist in the same
transaction's visible snapshot at creation time, otherwise the operation
fails). -/
def addEdge (s : Store) (lbl : String) (f t : Nat) :
    Except GraphError (Store × Edge) :=
  if containsNode s f && containsNode s t then
    let e : Edge := { id := s.nextId, label := lbl, fromId := f, toId := t }
    .ok ({ s with edges := s.edges ++ [e], nextId := s.nextId + 1 }, e)
  else
    .error (.new "add_edge: endpoint does not exist")

/-- The edge-creation loops of the generated handlers: add one edge per
(from, to) id pair, in order, threading the store. -/
def addEdgesForPairs (s : Store) (lbl : String) (pairs : List (Nat × Nat)) :
    Except GraphError (Store × List Edge) :=
  match pairs with
  | [] => .ok (s, [])
  | p :: rest =>
    match addEdge s lbl p.1 p.2 with
    | .error e => .error e
    | .ok (s1, e) =>
      match addEdgesForPairs s1 lbl rest with
      | .error e2 => .error e2
      | .ok (s2, es) => .ok (s2, e :: es)

/-- Modelled from the spec: the out-expansion operator (§4.3 Expand: follow
all edges of a given label outward from the current record set to the
adjacent node set). -/
def outNode (s : Store) (lbl : String) (ns : List Node) : List Node :=
  ns.flatMap (fun n =>
    (s.edges.filter (fun e => decide (e.label = lbl) && decide (e.fromId = n.id))).filterMap
      (fun e => findNode s e.toId))

/-- Modelled from the spec: the range operator (§4.3 Order / Range: an
offset/limit slice with absolute indices into the current sequence,
returning at most b - a records). -/
def rangeOp (a b : Nat) (xs : List α) : List α :=
  (xs.drop a).take (b - a)

/-- Modelled from the spec: the total comparison used by order_by
(§4.3: sort by a named property, nulls sort as empty/low). -/
def valRank : Value → Nat
  | .vEmpty => 0
  | .vBool _ => 1
  | .vInt _ => 2
  | .vF64 _ => 3
  | .vDate _ => 4
  | .vStr _ => 5

/-- Modelled from the spec: value ordering for order_by stages. -/
def valLe (a b : Value) : Bool :=
  match a, b with
  | .vInt m, .vInt n => decide (m ≤ n)
  | .vF64 m, .vF64 n => decide (m ≤ n)
  | .vDate m, .vDate n => decide (m ≤ n)
  | .vStr x, .vStr y => decide (x ≤ y)
  | .vBool x, .vBool y => !x || y
  | a, b => decide (valRank a ≤ valRank b)

/-- Modelled from the spec: the order_by_desc operator (§4.3 Order / Range:
a stable sort by a key, descending). -/
def orderByDesc (key : Node → Value) (ns : List Node) : List Node :=
  List.insertionSort (fun a b => valLe (key b) (key a) = true) ns

/-- Modelled from the spec: §4.1/§5 transaction discipline — a write
handler's effects are installed only by its final commit; any error
aborts the transaction and discards all of its effects. -/
def runWrite (h : Store → α → Except GraphError (Store × β)) (s : Store)
    (a : α) : Store × Except GraphError β :=
  match h s a with
  | .ok (s1, r) => (s1, .ok r)
  | .error e => (s, .error e)

/-- uuid_str: the id rendered as a string in every response. -/
def uuidStr (i : Nat) : String := toString i

/-- No edge of the store dangles: both endpoint ids resolve to nodes. -/
def noDangling (s : Store) : Bool :=
  s.edges.all (fun e => containsNode s e.fromId && containsNode s e.toId)

/-- Store well-formedness: node ids are pairwise distinct and below the
fresh-id counter. -/
def wfStore (s : Store) : Bool :=
  s.nodes.all (fun n => decide (n.id < s.nextId)) &&
    decide (s.nodes.map (fun n => n.id)).Nodup

/-! ## Handlers translated from src/queries.rs -/

/-- Input of LinkSessionToNode (src/queries.rs). -/
structure LinkSessionToNodeInput where
  session_external_id : String
  node_external_id : String
deriving DecidableEq, Repr

/-- The success payload of the link handlers. -/
structure DataResp where
  data : String
deriving DecidableEq, Repr

/-- The nested for-loops of LinkSessionToNode: one id pair for every
session matching session_external_id crossed with every TimelineNode
matching node_external_id, in loop order. -/
def linkPairs (s : Store) (d : LinkSessionToNodeInput) : List (Nat × Nat) :=
  (filterByProp "external_id" (.vStr d.session_external_id)
      (nFromType s "Session")).flatMap
    (fun f => (filterByProp "external_id" (.vStr d.node_external_id)
        (nFromType s "TimelineNode")).map
      (fun t => (f.id, t.id)))

/-- LinkSessionToNode (src/queries.rs, lines 719-766): seed Sessions by
external_id, seed TimelineNodes by external_id, add one SessionInNode edge
per (session, node) pair, respond with Success. -/
def LinkSessionToNode (s : Store) (d : LinkSessionToNodeInput) :
    Except GraphError (Store × DataResp) :=
  match addEdgesForPairs s "SessionInNode" (linkPairs s d) with
  | .error e => .error e
  | .ok (s1, _) => .ok (s1, { data := "Success" })

/-- Input of UpsertUser (src/queries.rs). -/
structure UpsertUserInput where
  external_id : String
  metadata : String
deriving DecidableEq, Repr

/-- The serialized User return shape of UpsertUser and GetUserByExternalId. -/
structure UserRet where
  id : String
  label : String
  external_id : Option Value
  metadata : Option Value
deriving DecidableEq, Repr

/-- Serialize one User node into the generated return type. -/
def serializeUser (n : Node) : UserRet :=
  { id := uuidStr n.id, label := n.label,
    external_id := getProp n "external_id", metadata := getProp n "metadata" }

/-- The field list UpsertUser passes to upsert_n. -/
def upsertUserFields (d : UpsertUserInput) : List (String × Value) :=
  [("external_id", .vStr d.external_id), ("metadata", .vStr d.metadata)]

/-- UpsertUser (src/queries.rs, lines 1140-1171): seed Users whose
external_id matches, upsert the given fields into the match set, return the
single resulting record. -/
def UpsertUser (s : Store) (d : UpsertUserInput) :
    Except GraphError (Store × UserRet) :=
  let existing := filterByProp "external_id" (.vStr d.external_id)
      (nFromType s "User")
  let r := upsertN s existing "User" (upsertUserFields d)
  match collectToObj r.2 with
  | .error e => .error e
  | .ok user => .ok (r.1, serializeUser user)

/-- Input of UpsertSession (src/queries.rs). -/
structure UpsertSessionInput where
  external_id : String
  user_key : String
  node_key : String
  start_time : Int
  end_time : Int
  duration_seconds : Int
  screenshot_count : Int
  workflow_primary : String
  workflow_secondary : String
  workflow_confidence : Nat
  metadata : String
deriving DecidableEq, Repr

/-- The serialized Session return shape of UpsertSession. -/
structure SessionRet where
  id : String
  label : String
  external_id : Option Value
  start_time : Option Value
  end_time : Option Value
  duration_seconds : Option Value
  screenshot_count : Option Value
  workflow_primary : Option Value
  workflow_secondary : Option Value
  workflow_confidence : Option Value
  metadata : Option Value
deriving DecidableEq, Repr

/-- Serialize one Session node into the generated return type. -/
def serializeSession (n : Node) : SessionRet :=
  { id := uuidStr n.id, label := n.label,
    external_id := getProp n "external_id",
    start_time := getProp n "start_time",
    end_time := getProp n "end_time",
    duration_seconds := getProp n "duration_seconds",
    screenshot_count := getProp n "screenshot_count",
    workflow_primary := getProp n "workflow_primary",
    workflow_secondary := getProp n "workflow_secondary",
    workflow_confidence := getProp n "workflow_confidence",
    metadata := getProp n "metadata" }

/-- The field list UpsertSession passes to upsert_n. -/
def upsertSessionFields (d : UpsertSessionInput) : List (String × Value) :=
  [("external_id", .vStr d.external_id),
   ("start_time", .vDate d.start_time),
   ("end_time", .vDate d.end_time),
   ("duration_seconds", .vInt d.duration_seconds),
   ("screenshot_count", .vInt d.screenshot_count),
   ("workflow_primary", .vStr d.workflow_primary),
   ("workflow_secondary", .vStr d.workflow_secondary),
   ("workflow_confidence", .vF64 d.workflow_confidence),
   ("metadata", .vStr d.metadata)]

/-- UpsertSession (src/queries.rs, lines 2285-2345): upsert the Session by
external_id, then link every User whose external_id equals user_key to it
by a UserOwnsSession edge, and return the session record. -/
def UpsertSession (s : Store) (d : UpsertSessionInput) :
    Except GraphError (Store × SessionRet) :=
  let existing := filterByProp "external_id" (.vStr d.external_id)
      (nFromType s "Session")
  let r := upsertN s existing "Session" (upsertSessionFields d)
  match collectToObj r.2 with
  | .error e => .error e
  | .ok session =>
    let user := filterByProp "external_id" (.vStr d.user_key)
        (nFromType r.1 "User")
    match addEdgesForPairs r.1 "UserOwnsSession"
        (user.map (fun u => (u.id, session.id))) with
    | .error e => .error e
    | .ok (s2, _) => .ok (s2, serializeSession session)

/-- Input of UpsertWorkflowPattern (src/queries.rs). -/
structure UpsertWorkflowPatternInput where
  user_id : String
  intent_category : String
  occurrence_count : Int
  metadata : String
deriving DecidableEq, Repr

/-- The serialized WorkflowPattern return shape. -/
structure PatternRet where
  id : String
  label : String
  intent_category : Option Value
  occurrence_count : Option Value
  metadata : Option Value
deriving DecidableEq, Repr

/-- The field list UpsertWorkflowPattern passes to upsert_n. -/
def upsertPatternFields (d : UpsertWorkflowPatternInput) :
    List (String × Value) :=
  [("intent_category", .vStr d.intent_category),
   ("occurrence_count", .vInt d.occurrence_count),
   ("metadata", .vStr d.metadata)]

/-- UpsertWorkflowPattern (src/queries.rs, lines 785-839): upsert the
pattern keyed by intent_category, then link every User whose external_id
equals user_id to it, and return the pattern record. -/
def UpsertWorkflowPattern (s : Store) (d : UpsertWorkflowPatternInput) :
    Except GraphError (Store × PatternRet) :=
  let existing := filterByProp "intent_category" (.vStr d.intent_category)
      (nFromType s "WorkflowPattern")
  let r := upsertN s existing "WorkflowPattern" (upsertPatternFields d)
  match collectToObj r.2 with
  | .error e => .error e
  | .ok pat =>
    let user := filterByProp "external_id" (.vStr d.user_id)
        (nFromType r.1 "User")
    match addEdgesForPairs r.1 "UserHasPattern"
        (user.map (fun u => (u.id, pat.id))) with
    | .error e => .error e
    | .ok (s2, _) =>
      .ok (s2,
        { id := uuidStr pat.id, label := pat.label,
          intent_category := getProp pat "intent_category",
          occurrence_count := getProp pat "occurrence_count",
          metadata := getProp pat "metadata" })

/-- Input of LinkActivityToEntity (src/queries.rs). -/
structure LinkActivityToEntityInput where
  screenshot_external_id : String
  entity_name : String
  context : String
deriving DecidableEq, Repr

/-- LinkActivityToEntity (src/queries.rs, lines 1979-2014): seed Activities
by screenshot_external_id, resolve the Entity by its unique name index
(NotFound when absent), add one ActivityMentionsEntity edge per activity. -/
def LinkActivityToEntity (s : Store) (d : LinkActivityToEntityInput) :
    Except GraphError (Store × DataResp) :=
  let activity := filterByProp "screenshot_external_id"
      (.vStr d.screenshot_external_id) (nFromType s "Activity")
  match collectToObj (nFromIndex s "Entity" "name" (.vStr d.entity_name)) with
  | .error e => .error e
  | .ok entity =>
    match addEdgesForPairs s "ActivityMentionsEntity"
        (activity.map (fun a => (a.id, entity.id))) with
    | .error e => .error e
    | .ok (s1, _) => .ok (s1, { data := "Success" })

/-- Input of GetUserByExternalId (src/queries.rs). -/
structure GetUserByExternalIdInput where
  external_id : String
deriving DecidableEq, Repr

/-- The response of GetUserByExternalId: a field named user holding the
list of all matching users. -/
structure GetUserResp where
  user : List UserRet
deriving DecidableEq, Repr

/-- GetUserByExternalId (src/queries.rs, lines 1631-1659): seed Users whose
external_id matches and return them all as a list under the user field. -/
def GetUserByExternalId (s : Store) (d : GetUserByExternalIdInput) :
    Except GraphError GetUserResp :=
  .ok { user := (filterByProp "external_id" (.vStr d.external_id)
      (nFromType s "User")).map serializeUser }

/-- Input of GetAllSessionsExcludingUser (src/queries.rs). -/
structure GetAllSessionsExcludingUserInput where
  exclude_user_key : String
  start : Int
  end_range : Int
deriving DecidableEq, Repr

/-- GetAllSessionsExcludingUser (src/queries.rs, lines 1943-1970): seed all
Sessions and slice them by range(start, end_range); the body never touches
exclude_user_key. -/
def GetAllSessionsExcludingUser (s : Store)
    (d : GetAllSessionsExcludingUserInput) :
    Except GraphError (List SessionRet) :=
  .ok ((rangeOp d.start.toNat d.end_range.toNat (nFromType s "Session")).map
    serializeSession)

/-- Input of AggregateSessionsByWorkflow (src/queries.rs). -/
structure AggregateSessionsByWorkflowInput where
  user_key : String
deriving DecidableEq, Repr

/-- AggregateSessionsByWorkflow (src/queries.rs, lines 1098-1124): seed
Users whose external_id equals user_key, expand out along UserOwnsSession
and return the resulting session records directly — the handler body
contains no aggregation or group-by stage. -/
def AggregateSessionsByWorkflow (s : Store)
    (d : AggregateSessionsByWorkflowInput) :
    Except GraphError (List Node) :=
  .ok (outNode s "UserOwnsSession"
    (filterByProp "external_id" (.vStr d.user_key) (nFromType s "User")))

/-- One group of the grouped response shape declared by
AggregateSessionsByWorkflowSessionsReturnType: key, per-group count and
the member sessions. -/
structure AggGroup where
  key : Value
  count : Nat
  items : List Node
deriving DecidableEq, Repr

/-- Append a key if it is not already present. -/
def insertKey (acc : List Value) (v : Value) : List Value :=
  if acc.any (fun w => decide (w = v)) then acc else acc ++ [v]

/-- The distinct key values of a node list, in order of first appearance. -/
def firstKeys (key : Node → Value) (ns : List Node) : List Value :=
  (ns.map key).foldl insertKey []

/-- Modelled from the spec: the group-by reducer (§4.3 Dedup / Count /
Aggregate / Group-by: partition by a key property and expose per-group
count plus member list).  This is the behavior claim C7 ascribes to
AggregateSessionsByWorkflow; the handler in src/queries.rs does not
invoke it. -/
def groupByKey (key : Node → Value) (ns : List Node) : List AggGroup :=
  (firstKeys key ns).map (fun v =>
    let items := ns.filter (fun n => decide (key n = v))
    { key := v, count := items.length, items := items })

/-- The grouped response AggregateSessionsByWorkflow would return per the
spec sentence behind claim C7: partition the user's sessions by their
workflow_primary property. -/
def aggregateSessionsByWorkflowSpec (s : Store)
    (d : AggregateSessionsByWorkflowInput) : List AggGroup :=
  groupByKey (fun n => (getProp n "workflow_primary").getD .vEmpty)
    (outNode s "UserOwnsSession"
      (filterByProp "external_id" (.vStr d.user_key) (nFromType s "User")))

namespace Container

/-- Input of GetSessionsByUser
(src/.helix/dev/helix-container/src/queries.rs); start and end_range are
u32 in the source. -/
structure GetSessionsByUserInput where
  user_key : String
  start : Nat
  end_range : Nat
deriving DecidableEq, Repr

/-- The serialized Session return shape of the container variant of
GetSessionsByUser. -/
structure SessionRetCU where
  id : String
  label : String
  workflow_primary : Option Value
  end_time : Option Value
  workflow_confidence : Option Value
  screenshot_count : Option Value
  node_key : Option Value
  external_id : Option Value
  workflow_secondary : Option Value
  metadata : Option Value
  start_time : Option Value
  user_key : Option Value
  duration_seconds : Option Value
deriving DecidableEq, Repr

/-- Serialize one Session node for the container variant. -/
def serializeSessionCU (n : Node) : SessionRetCU :=
  { id := uuidStr n.id, label := n.label,
    workflow_primary := getProp n "workflow_primary",
    end_time := getProp n "end_time",
    workflow_confidence := getProp n "workflow_confidence",
    screenshot_count := getProp n "screenshot_count",
    node_key := getProp n "node_key",
    external_id := getProp n "external_id",
    workflow_secondary := getProp n "workflow_secondary",
    metadata := getProp n "metadata",
    start_time := getProp n "start_time",
    user_key := getProp n "user_key",
    duration_seconds := getProp n "duration_seconds" }

/-- GetSessionsByUser (src/.helix/dev/helix-container/src/queries.rs,
lines 1693-1734): seed Sessions whose user_key property matches, sort them
by start_time descending with Value.Empty for missing keys, then slice by
range(start, end_range). -/
def GetSessionsByUser (s : Store) (d : GetSessionsByUserInput) :
    Except GraphError (List SessionRetCU) :=
  .ok ((rangeOp d.start d.end_range
    (orderByDesc (fun n => (getProp n "start_time").getD .vEmpty)
      (filterByProp "user_key" (.vStr d.user_key)
        (nFromType s "Session")))).map serializeSessionCU)

end Container

/-- The seed/filter stage shared by UpsertUser and GetUserByExternalId:
all User nodes whose external_id property equals the given key. -/
def matchingUsers (s : Store) (key : String) : List Node :=
  filterByProp "external_id" (.vStr key) (nFromType s "User")

/-- A store holding two WorkflowPattern records that share the
intent_category "coding": the multi-match situation of the claim. -/
def c5store : Store :=
  ⟨[⟨0, "WorkflowPattern", [("intent_category", .vStr "coding"),
      ("occurrence_count", .vInt 1), ("metadata", .vStr "a")]⟩,
    ⟨1, "WorkflowPattern", [("intent_category", .vStr "coding"),
      ("occurrence_count", .vInt 5), ("metadata", .vStr "b")]⟩], [], 2⟩

/-- The upsert request hitting both records. -/
def c5inp : UpsertWorkflowPatternInput := ⟨"u1", "coding", 7, "c"⟩

/-- A store where the user u1 owns three sessions falling into two
workflow_primary groups (dev, dev, email). -/
def c7store : Store :=
  ⟨[⟨0, "User", [("external_id", .vStr "u1")]⟩,
    ⟨1, "Session", [("workflow_primary", .vStr "dev")]⟩,
    ⟨2, "Session", [("workflow_primary", .vStr "dev")]⟩,
    ⟨3, "Session", [("workflow_primary", .vStr "email")]⟩],
   [⟨10, "UserOwnsSession", 0, 1⟩, ⟨11, "UserOwnsSession", 0, 2⟩,
    ⟨12, "UserOwnsSession", 0, 3⟩], 13⟩

/-- The three sessions the handler actually returns for c7store. -/
def c7flat : List Node :=
  [⟨1, "Session", [("workflow_primary", .vStr "dev")]⟩,
   ⟨2, "Session", [("workflow_primary", .vStr "dev")]⟩,
   ⟨3, "Session", [("workflow_primary", .vStr "email")]⟩]

/-- The match predicate of UpsertUser's seed/filter stage as a single
boolean test. -/
def userMatch (key : String) (n : Node) : Bool :=
  propEq "external_id" (.vStr key) n && decide (n.label = "User")

/-! ## Basic lemmas about property maps -/

theorem lookupProp_nil (k : String) : lookupProp [] k = none := rfl

theorem lookupProp_cons (p : String × Value) (ps : List (String × Value))
    (k : String) :
    lookupProp (p :: ps) k = if p.1 = k then some p.2 else lookupProp ps k := by
  by_cases h : p.1 = k <;> simp [lookupProp, List.find?_cons, h]

theorem lookupProp_append (l1 l2 : List (String × Value)) (k : String) :
    lookupProp (l1 ++ l2) k =
      match lookupProp l1 k with
      | some v => some v
      | none => lookupProp l2 k := by
  induction l1 with
  | nil => simp [lookupProp_nil]
  | cons p l1 ih =>
    by_cases h : p.1 = k <;> simp [lookupProp_cons, h, ih]

theorem lookupProp_setProp (ps : List (String × Value)) (a k : String)
    (b : Value) :
    lookupProp (setProp ps a b) k = if a = k then some b else lookupProp ps k := by
  induction ps with
  | nil => by_cases h : a = k <;> simp [setProp, lookupProp_cons, lookupProp_nil, h]
  | cons p ps ih =>
    by_cases hpa : p.1 = a
    · rw [show setProp (p :: ps) a b = (a, b) :: ps from by simp [setProp, hpa]]
      by_cases hak : a = k
      · simp [lookupProp_cons, hak]
      · have hpk : ¬ p.1 = k := by rw [hpa]; exact hak
        simp [lookupProp_cons, hak, hpk]
    · rw [show setProp (p :: ps) a b = p :: setProp ps a b from by
        simp [setProp, hpa]]
      by_cases hpk : p.1 = k
      · have hak : ¬ a = k := fun h => hpa (by rw [hpk, h])
        simp [lookupProp_cons, hpk, hak]
      · simp [lookupProp_cons, hpk, ih]

theorem lookupProp_mergeProps (ps fs : List (String × Value)) (k : String) :
    lookupProp (mergeProps ps fs) k =
      match lookupProp fs.reverse k with
      | some v => some v
      | none => lookupProp ps k := by
  induction fs generalizing ps with
  | nil => simp [mergeProps, lookupProp_nil]
  | cons f fs ih =>
    rw [show mergeProps ps (f :: fs) = mergeProps (setProp ps f.1 f.2) fs from rfl]
    rw [ih, List.reverse_cons, lookupProp_append]
    cases hfs : lookupProp fs.reverse k with
    | some v => rfl
    | none =>
      by_cases hfk : f.1 = k <;>
        simp [lookupProp_setProp, lookupProp_cons, lookupProp_nil, hfk]

theorem lookupProp_eq_some_of_mem (fs : List (String × Value)) (k : String)
    (v : Value) (hmem : (k, v) ∈ fs) (hnd : (fs.map Prod.fst).Nodup) :
    lookupProp fs k = some v := by
  induction fs with
  | nil => simp at hmem
  | cons f fs ih =>
    rw [List.map_cons, List.nodup_cons] at hnd
    rcases List.mem_cons.mp hmem with hf | hrest
    · rw [← hf, lookupProp_cons]; simp
    · have hk : k ∈ fs.map Prod.fst :=
        List.mem_map.mpr ⟨(k, v), hrest, rfl⟩
      have hfk : ¬ f.1 = k := fun h => hnd.1 (h ▸ hk)
      rw [lookupProp_cons]
      simp [hfk, ih hrest hnd.2]

theorem lookupProp_eq_none_of_not_mem (fs : List (String × Value)) (k : String)
    (h : k ∉ fs.map Prod.fst) : lookupProp fs k = none := by
  induction fs with
  | nil => rfl
  | cons f fs ih =>
    rw [List.map_cons, List.mem_cons] at h
    push_neg at h
    rw [lookupProp_cons]
    have hfk : ¬ f.1 = k := fun hh => h.1 hh.symm
    simp [hfk, ih h.2]

/-- propEq holds exactly when the property resolves to the given value. -/
theorem propEq_eq_true_iff (k : String) (v : Value) (n : Node) :
    propEq k v n = true ↔ getProp n k = some v := by
  unfold propEq
  cases h : getProp n k with
  | none => simp
  | some w => simp [decide_eq_true_eq, eq_comm]

/-! ## Lemmas about edge creation -/

theorem addEdge_ok_elim (s : Store) (lbl : String) (f t : Nat) (s1 : Store)
    (e : Edge) (h : addEdge s lbl f t = .ok (s1, e)) :
    containsNode s f = true ∧ containsNode s t = true ∧
      s1 = { s with edges := s.edges ++ [⟨s.nextId, lbl, f, t⟩],
                    nextId := s.nextId + 1 } := by
  unfold addEdge at h
  by_cases hc : (containsNode s f && containsNode s t) = true
  · rw [if_pos hc] at h
    have hsplit : containsNode s f = true ∧ containsNode s t = true := by
      simpa using hc
    injection h with h2
    exact ⟨hsplit.1, hsplit.2, (congrArg Prod.fst h2).symm⟩
  · rw [if_neg hc] at h
    exact absurd h (by simp)

theorem addEdge_error_of_missing (s : Store) (lbl : String) (f t : Nat)
    (h : containsNode s f = false ∨ containsNode s t = false) :
    addEdge s lbl f t = .error (.new "add_edge: endpoint does not exist") := by
  unfold addEdge
  have hc : ¬ (containsNode s f && containsNode s t) = true := by
    rcases h with h | h <;> simp [h]
  rw [if_neg hc]

theorem addEdgesForPairs_ok (lbl : String) :
    ∀ (pairs : List (Nat × Nat)) (s : Store),
      (∀ p ∈ pairs, containsNode s p.1 = true ∧ containsNode s p.2 = true) →
      ∃ s1 es, addEdgesForPairs s lbl pairs = .ok (s1, es) ∧
        s1.nodes = s.nodes ∧
        s1.edges.map (fun e => (e.label, e.fromId, e.toId)) =
          s.edges.map (fun e => (e.label, e.fromId, e.toId)) ++
            pairs.map (fun p => (lbl, p.1, p.2)) := by
  intro pairs
  induction pairs with
  | nil => intro s _; exact ⟨s, [], rfl, rfl, by simp⟩
  | cons p rest ih =>
    intro s hmem
    have hp := hmem p (List.mem_cons_self p rest)
    have hok : addEdge s lbl p.1 p.2 =
        .ok ({ s with edges := s.edges ++ [⟨s.nextId, lbl, p.1, p.2⟩],
                      nextId := s.nextId + 1 }, ⟨s.nextId, lbl, p.1, p.2⟩) := by
      unfold addEdge
      rw [if_pos (by simp [hp.1, hp.2])]
    have hmem2 : ∀ q ∈ rest,
        containsNode { s with edges := s.edges ++ [⟨s.nextId, lbl, p.1, p.2⟩],
                              nextId := s.nextId + 1 } q.1 = true ∧
        containsNode { s with edges := s.edges ++ [⟨s.nextId, lbl, p.1, p.2⟩],
                              nextId := s.nextId + 1 } q.2 = true := by
      intro q hq
      exact hmem q (List.mem_cons_of_mem p hq)
    rcases ih _ hmem2 with ⟨s1, es, hrec, hn, he⟩
    refine ⟨s1, ⟨s.nextId, lbl, p.1, p.2⟩ :: es, ?_, hn, ?_⟩
    · simp only [addEdgesForPairs, hok, hrec]
    · rw [he]
      simp

theorem addEdgesForPairs_error_is_new (lbl : String) :
    ∀ (pairs : List (Nat × Nat)) (s : Store) (e : GraphError),
      addEdgesForPairs s lbl pairs = .error e → ∃ msg, e = .new msg := by
  intro pairs
  induction pairs with
  | nil => intro s e h; exact absurd h (by simp [addEdgesForPairs])
  | cons p rest ih =>
    intro s e h
    simp only [addEdgesForPairs] at h
    cases hae : addEdge s lbl p.1 p.2 with
    | error e1 =>
      simp only [hae] at h
      injection h with h2
      unfold addEdge at hae
      by_cases hc : (containsNode s p.1 && containsNode s p.2) = true
      · rw [if_pos hc] at hae; exact absurd hae (by simp)
      · rw [if_neg hc] at hae
        injection hae with h3
        exact ⟨"add_edge: endpoint does not exist", by rw [← h2, ← h3]⟩
    | ok pr =>
      obtain ⟨s1, e1⟩ := pr
      simp only [hae] at h
      cases hrec : addEdgesForPairs s1 lbl rest with
      | error e2 =>
        simp only [hrec] at h
        injection h with h2
        exact h2 ▸ ih s1 e2 hrec
      | ok pr2 =>
        obtain ⟨s2, es⟩ := pr2
        simp only [hrec] at h
        exact absurd h (by simp)

/-! ## Membership and invariant lemmas -/

theorem containsNode_of_mem (s : Store) (n : Node) (h : n ∈ s.nodes) :
    containsNode s n.id = true :=
  List.any_eq_true.mpr ⟨n, h, by simp⟩

theorem mem_nodes_of_mem_seed (s : Store) (lbl k : String) (v : Value)
    (n : Node) (h : n ∈ filterByProp k v (nFromType s lbl)) : n ∈ s.nodes :=
  List.mem_filter.mp ((List.mem_filter.mp h).1) |>.1

theorem linkPairs_endpoints (s : Store) (d : LinkSessionToNodeInput) :
    ∀ p ∈ linkPairs s d,
      containsNode s p.1 = true ∧ containsNode s p.2 = true := by
  intro p hp
  rcases List.mem_flatMap.mp hp with ⟨f, hf, hmap⟩
  rcases List.mem_map.mp hmap with ⟨t, ht, hpt⟩
  rw [← hpt]
  exact ⟨containsNode_of_mem s f (mem_nodes_of_mem_seed s _ _ _ f hf),
         containsNode_of_mem s t (mem_nodes_of_mem_seed s _ _ _ t ht)⟩

theorem noDangling_iff (s : Store) :
    noDangling s = true ↔ ∀ e ∈ s.edges,
      containsNode s e.fromId = true ∧ containsNode s e.toId = true := by
  simp [noDangling, List.all_eq_true, Bool.and_eq_true]

theorem noDangling_addEdgesForPairs (lbl : String) :
    ∀ (pairs : List (Nat × Nat)) (s s1 : Store) (es : List Edge),
      noDangling s = true → addEdgesForPairs s lbl pairs = .ok (s1, es) →
      noDangling s1 = true := by
  intro pairs
  induction pairs with
  | nil =>
    intro s s1 es hnd h
    simp only [addEdgesForPairs] at h
    injection h with h2
    have hs : s = s1 := congrArg Prod.fst h2
    rw [← hs]; exact hnd
  | cons p rest ih =>
    intro s s1 es hnd h
    simp only [addEdgesForPairs] at h
    cases hae : addEdge s lbl p.1 p.2 with
    | error e1 => rw [hae] at h; simp at h
    | ok pr =>
      obtain ⟨smid, e⟩ := pr
      rw [hae] at h
      simp only [] at h
      cases hrec : addEdgesForPairs smid lbl rest with
      | error e2 => rw [hrec] at h; simp at h
      | ok pr2 =>
        obtain ⟨s2, es2⟩ := pr2
        rw [hrec] at h
        simp only [] at h
        injection h with h2
        have hs2 : s2 = s1 := congrArg Prod.fst h2
        have hmid : noDangling smid = true := by
          rcases addEdge_ok_elim s lbl p.1 p.2 smid e hae with ⟨hf, ht, hssub⟩
          subst hssub
          rw [noDangling_iff] at hnd ⊢
          intro e2 he2
          rcases List.mem_append.mp he2 with h1 | h1
          · exact hnd e2 h1
          · have he3 : e2 = ⟨s.nextId, lbl, p.1, p.2⟩ := by simpa using h1
            subst he3
            exact ⟨hf, ht⟩
        rw [← hs2]
        exact ih smid s2 es2 hmid hrec

theorem upsertN_edges_eq (s : Store) (ms : List Node) (lbl : String)
    (fields : List (String × Value)) :
    (upsertN s ms lbl fields).1.edges = s.edges := by
  cases ms <;> rfl

theorem upsertN_contains (s : Store) (ms : List Node) (lbl : String)
    (fields : List (String × Value)) (i : Nat)
    (h : containsNode s i = true) :
    containsNode (upsertN s ms lbl fields).1 i = true := by
  cases ms with
  | nil =>
    unfold containsNode at h ⊢
    simp only [upsertN]
    rw [List.any_append]
    simp [h]
  | cons m rest =>
    unfold containsNode at h ⊢
    simp only [upsertN]
    rw [List.any_eq_true] at h ⊢
    rcases h with ⟨n, hn, hid⟩
    refine ⟨if (m :: rest).any (fun mm => decide (mm.id = n.id)) then
        mergeNode fields n else n, List.mem_map.mpr ⟨n, hn, rfl⟩, ?_⟩
    by_cases hc : ((m :: rest).any fun mm => decide (mm.id = n.id)) = true <;>
      simp [hc, mergeNode, hid]

theorem noDangling_upsertN (s : Store) (ms : List Node) (lbl : String)
    (fields : List (String × Value)) (h : noDangling s = true) :
    noDangling (upsertN s ms lbl fields).1 = true := by
  rw [noDangling_iff] at h ⊢
  intro e he
  rw [upsertN_edges_eq] at he
  exact ⟨upsertN_contains s ms lbl fields e.fromId (h e he).1,
         upsertN_contains s ms lbl fields e.toId (h e he).2⟩

/-- The single successful-run characterization of LinkSessionToNode used
by several claims: it always commits, node records are untouched and the
edge list grows by exactly the cartesian pairs. -/
theorem LinkSessionToNode_ok (s : Store) (d : LinkSessionToNodeInput) :
    ∃ s1 es, addEdgesForPairs s "SessionInNode" (linkPairs s d) = .ok (s1, es) ∧
      LinkSessionToNode s d = .ok (s1, { data := "Success" }) ∧
      s1.nodes = s.nodes ∧
      s1.edges.map (fun e => (e.label, e.fromId, e.toId)) =
        s.edges.map (fun e => (e.label, e.fromId, e.toId)) ++
          (linkPairs s d).map (fun p => ("SessionInNode", p.1, p.2)) := by
  rcases addEdgesForPairs_ok "SessionInNode" (linkPairs s d) s
      (linkPairs_endpoints s d) with ⟨s1, es, hok, hn, he⟩
  exact ⟨s1, es, hok, by simp only [LinkSessionToNode, hok], hn, he⟩

/-! ## Claim C9 -/

/-- C9: LinkSessionToNode creates one SessionInNode edge for every
(session, node) pair of the two match sets — the full cartesian product —
touches no node records, and commits with the Success payload even when
either match set is empty and no edge is created. -/
theorem c9_link_session_to_node_cartesian_success (s : Store)
    (d : LinkSessionToNodeInput) :
    ∃ s1, LinkSessionToNode s d = .ok (s1, { data := "Success" }) ∧
      s1.nodes = s.nodes ∧
      s1.edges.map (fun e => (e.label, e.fromId, e.toId)) =
        s.edges.map (fun e => (e.label, e.fromId, e.toId)) ++
          ((filterByProp "external_id" (.vStr d.session_external_id)
              (nFromType s "Session")).flatMap
            (fun f => (filterByProp "external_id" (.vStr d.node_external_id)
                (nFromType s "TimelineNode")).map
              (fun t => ("SessionInNode", f.id, t.id)))) := by
  rcases LinkSessionToNode_ok s d with ⟨s1, es, _, hrun, hn, he⟩
  refine ⟨s1, hrun, hn, ?_⟩
  rw [he]
  congr 1
  unfold linkPairs
  rw [List.map_flatMap]
  simp only [List.map_map]
  rfl

/-- Witness for C9: a concrete store with one matching session and one
matching timeline node gains exactly the one product edge and answers
Success. -/
theorem c9_witness :
    ∃ s1, LinkSessionToNode
        ⟨[⟨0, "Session", [("external_id", .vStr "s1")]⟩,
          ⟨1, "TimelineNode", [("external_id", .vStr "t1")]⟩], [], 2⟩
        ⟨"s1", "t1"⟩ = .ok (s1, { data := "Success" }) ∧
      s1.edges.map (fun e => (e.label, e.fromId, e.toId)) =
        [("SessionInNode", 0, 1)] := by
  rcases c9_link_session_to_node_cartesian_success
      ⟨[⟨0, "Session", [("external_id", .vStr "s1")]⟩,
        ⟨1, "TimelineNode", [("external_id", .vStr "t1")]⟩], [], 2⟩
      ⟨"s1", "t1"⟩ with ⟨s1, hrun, hn, he⟩
  refine ⟨s1, hrun, ?_⟩
  rw [he]
  decide

/-! ## Claim C3 -/

/-- C3: add_edge fails when either endpoint id is absent from the write
transaction's snapshot, and consequently the edge-creating write handlers
cited by the claim (LinkSessionToNode, UpsertSession) preserve the
no-dangling-edge invariant of the store. -/
theorem c3_add_edge_endpoint_validation :
    (∀ s lbl f t, (containsNode s f = false ∨ containsNode s t = false) →
        addEdge s lbl f t = .error (.new "add_edge: endpoint does not exist")) ∧
    (∀ s d s1 r, noDangling s = true → LinkSessionToNode s d = .ok (s1, r) →
        noDangling s1 = true) ∧
    (∀ s d s1 r, noDangling s = true → UpsertSession s d = .ok (s1, r) →
        noDangling s1 = true) := by
  refine ⟨addEdge_error_of_missing, ?_, ?_⟩
  · intro s d s1 r hnd h
    rcases LinkSessionToNode_ok s d with ⟨s1b, es, hadd, hrun, _, _⟩
    rw [hrun] at h
    injection h with h2
    have hs : s1b = s1 := congrArg Prod.fst h2
    rw [← hs]
    exact noDangling_addEdgesForPairs "SessionInNode" (linkPairs s d) s s1b es
      hnd hadd
  · intro s d s1 r hnd h
    simp only [UpsertSession] at h
    split at h
    · exact absurd h (by simp)
    · split at h
      · exact absurd h (by simp)
      · rename_i session hco s2 es2 hae
        injection h with h2
        have hs : s2 = s1 := congrArg Prod.fst h2
        rw [← hs]
        exact noDangling_addEdgesForPairs "UserOwnsSession" _ _ s2 es2
          (noDangling_upsertN s _ "Session" (upsertSessionFields d) hnd) hae

/-- Witness for C3: adding an edge over an empty store fails, and a run of
LinkSessionToNode on a concrete dangling-free store keeps it
dangling-free. -/
theorem c3_witness :
    addEdge ⟨[], [], 0⟩ "SessionInNode" 0 1 =
      .error (.new "add_edge: endpoint does not exist") ∧
    noDangling
      ⟨[⟨0, "Session", [("external_id", .vStr "s1")]⟩,
        ⟨1, "TimelineNode", [("external_id", .vStr "t1")]⟩],
       [⟨2, "SessionInNode", 0, 1⟩], 3⟩ = true := by
  constructor
  · exact c3_add_edge_endpoint_validation.1 ⟨[], [], 0⟩ "SessionInNode" 0 1
      (Or.inl (by decide))
  · exact c3_add_edge_endpoint_validation.2.1
      ⟨[⟨0, "Session", [("external_id", .vStr "s1")]⟩,
        ⟨1, "TimelineNode", [("external_id", .vStr "t1")]⟩], [], 2⟩
      ⟨"s1", "t1"⟩
      ⟨[⟨0, "Session", [("external_id", .vStr "s1")]⟩,
        ⟨1, "TimelineNode", [("external_id", .vStr "t1")]⟩],
       [⟨2, "SessionInNode", 0, 1⟩], 3⟩
      ⟨"Success"⟩ (by decide) (by rfl)

/-! ## Claim C2 -/

/-- C2: any operator error inside a write handler's pipeline propagates to
the handler result, commit is never reached and the store is unchanged
(shown for the cited handlers UpsertSession and LinkActivityToEntity via
the modelled transaction discipline runWrite); moreover
LinkActivityToEntity genuinely errors when the Entity index lookup is
empty. -/
theorem c2_pipeline_error_aborts_transaction :
    (∀ s d e, UpsertSession s d = .error e →
        runWrite UpsertSession s d = (s, .error e)) ∧
    (∀ s d e, LinkActivityToEntity s d = .error e →
        runWrite LinkActivityToEntity s d = (s, .error e)) ∧
    (∀ s d, nFromIndex s "Entity" "name" (.vStr d.entity_name) = [] →
        LinkActivityToEntity s d = .error .notFound) := by
  refine ⟨?_, ?_, ?_⟩
  · intro s d e h; unfold runWrite; rw [h]
  · intro s d e h; unfold runWrite; rw [h]
  · intro s d h
    unfold LinkActivityToEntity
    rw [h]
    rfl

/-- Witness for C2: a concrete store holding one Activity and no Entity;
LinkActivityToEntity fails with NotFound and the committed store is
untouched. -/
theorem c2_witness :
    runWrite LinkActivityToEntity
      ⟨[⟨0, "Activity", [("screenshot_external_id", .vStr "s1")]⟩], [], 1⟩
      ⟨"s1", "missing", "ctx"⟩ =
    (⟨[⟨0, "Activity", [("screenshot_external_id", .vStr "s1")]⟩], [], 1⟩,
     .error .notFound) :=
  c2_pipeline_error_aborts_transaction.2.1 _ _ _
    (c2_pipeline_error_aborts_transaction.2.2 _ _ (by decide))

/-! ## Claim C8 -/

/-- C8: the result of GetAllSessionsExcludingUser does not depend on the
exclude_user_key parameter — two requests agreeing on start and end_range
get identical session lists, so sessions of the named user are not
excluded. -/
theorem c8_exclude_user_key_is_ignored (s : Store)
    (d1 d2 : GetAllSessionsExcludingUserInput)
    (hs : d1.start = d2.start) (he : d1.end_range = d2.end_range) :
    GetAllSessionsExcludingUser s d1 = GetAllSessionsExcludingUser s d2 := by
  unfold GetAllSessionsExcludingUser
  rw [hs, he]

/-- Witness for C8: concrete requests differing only in exclude_user_key
over a store whose single session belongs to the excluded user. -/
theorem c8_witness :
    GetAllSessionsExcludingUser
      ⟨[⟨0, "Session", [("external_id", .vStr "s1")]⟩], [], 1⟩
      ⟨"alice", 0, 10⟩ =
    GetAllSessionsExcludingUser
      ⟨[⟨0, "Session", [("external_id", .vStr "s1")]⟩], [], 1⟩
      ⟨"bob", 0, 10⟩ :=
  c8_exclude_user_key_is_ignored _ _ _ rfl rfl

/-! ## Claim C10 -/

/-- C10: GetUserByExternalId always succeeds and its user field is the
list of exactly the matching users — in particular it is the empty list,
not a NotFound error, when no User has the requested external_id. -/
theorem c10_get_user_returns_matching_list (s : Store)
    (d : GetUserByExternalIdInput) :
    ∃ r, GetUserByExternalId s d = .ok r ∧
      (∀ u, u ∈ r.user ↔ ∃ n, n ∈ s.nodes ∧ n.label = "User" ∧
          getProp n "external_id" = some (.vStr d.external_id) ∧
          u = serializeUser n) := by
  refine ⟨_, rfl, ?_⟩
  intro u
  simp only [filterByProp, nFromType, List.mem_map, List.mem_filter,
    decide_eq_true_eq, propEq_eq_true_iff]
  constructor
  · rintro ⟨n, ⟨⟨hn, hlbl⟩, hprop⟩, hu⟩
    exact ⟨n, hn, hlbl, hprop, hu.symm⟩
  · rintro ⟨n, hn, hlbl, hprop, hu⟩
    exact ⟨n, ⟨⟨hn, hlbl⟩, hprop⟩, hu.symm⟩

/-- Witness for C10: on a store with no matching user the handler returns
the empty list under the user field. -/
theorem c10_witness :
    GetUserByExternalId
      ⟨[⟨0, "User", [("external_id", .vStr "other")]⟩], [], 1⟩ ⟨"u1"⟩ =
      .ok ⟨[]⟩ ∧
    ¬ (⟨0, "User", [("external_id", .vStr "other")]⟩ : Node) ∈
        ([] : List Node) := by
  constructor
  · rcases c10_get_user_returns_matching_list
      ⟨[⟨0, "User", [("external_id", .vStr "other")]⟩], [], 1⟩ ⟨"u1"⟩ with
      ⟨r, hr, _⟩
    rw [hr]
    rw [show r = ⟨[]⟩ from by rw [← (Except.ok.injEq _ _).mp hr]; decide]
  · simp

/-! ## Claim C1 -/

/-- C1: the upsert stage of the upsert handlers, run on the match set of
the preceding seed/filter stage: an empty match set inserts a fresh record
carrying exactly the given fields, and a singleton match set merges the
fields into that record field-by-field — every unmentioned field keeps its
previous value and the record id is unchanged. -/
theorem c1_upsert_inserts_or_merges (s : Store) (lbl : String)
    (fields : List (String × Value)) (m : Node)
    (hnd : (fields.map Prod.fst).Nodup) :
    ((upsertN s [] lbl fields).1.nodes =
        s.nodes ++ [⟨s.nextId, lbl, fields⟩] ∧
      (upsertN s [] lbl fields).2 = [⟨s.nextId, lbl, fields⟩]) ∧
    ((upsertN s [m] lbl fields).2 = [mergeNode fields m] ∧
      (mergeNode fields m).id = m.id ∧
      (mergeNode fields m).label = m.label ∧
      (∀ k v, (k, v) ∈ fields → getProp (mergeNode fields m) k = some v) ∧
      (∀ k, k ∉ fields.map Prod.fst →
        getProp (mergeNode fields m) k = getProp m k)) := by
  refine ⟨⟨rfl, rfl⟩, rfl, rfl, rfl, ?_, ?_⟩
  · intro k v hmem
    show lookupProp (mergeProps m.props fields) k = some v
    rw [lookupProp_mergeProps]
    have hrev : lookupProp fields.reverse k = some v := by
      apply lookupProp_eq_some_of_mem
      · exact List.mem_reverse.mpr hmem
      · rw [List.map_reverse]
        exact List.nodup_reverse.mpr hnd
    rw [hrev]
  · intro k hk
    show lookupProp (mergeProps m.props fields) k = getProp m k
    rw [lookupProp_mergeProps]
    have hrev : lookupProp fields.reverse k = none := by
      apply lookupProp_eq_none_of_not_mem
      rw [List.map_reverse]
      exact fun hmem => hk (List.mem_reverse.mp hmem)
    rw [hrev]
    rfl

/-- Witness for C1: inserting into an empty match set produces exactly the
given fields, and merging onto a concrete record preserves its unmentioned
extra field. -/
theorem c1_witness :
    (upsertN ⟨[], [], 0⟩ [] "User"
        [("external_id", .vStr "u1"), ("metadata", .vStr "m1")]).2 =
      [⟨0, "User", [("external_id", .vStr "u1"), ("metadata", .vStr "m1")]⟩] ∧
    getProp (mergeNode [("external_id", .vStr "u1"), ("metadata", .vStr "m1")]
        ⟨5, "User", [("external_id", .vStr "u0"), ("extra", .vInt 3)]⟩)
      "extra" = some (.vInt 3) := by
  constructor
  · exact (c1_upsert_inserts_or_merges ⟨[], [], 0⟩ "User"
      [("external_id", .vStr "u1"), ("metadata", .vStr "m1")]
      ⟨5, "User", []⟩ (by decide)).1.2
  · have h := (c1_upsert_inserts_or_merges ⟨[], [], 0⟩ "User"
      [("external_id", .vStr "u1"), ("metadata", .vStr "m1")]
      ⟨5, "User", [("external_id", .vStr "u0"), ("extra", .vInt 3)]⟩
      (by decide)).2.2.2.2.2 "extra" (by decide)
    rw [h]
    decide

/-! ## Claim C5 -/

/-- Counterexample for C5: with two matched WorkflowPattern records the
handler does not return an Ambiguous error — there is no single-match
mode; it merges the fields into both records and succeeds. -/
theorem c5_counterexample :
    UpsertWorkflowPattern c5store c5inp =
      .ok (⟨[⟨0, "WorkflowPattern", [("intent_category", .vStr "coding"),
              ("occurrence_count", .vInt 7), ("metadata", .vStr "c")]⟩,
            ⟨1, "WorkflowPattern", [("intent_category", .vStr "coding"),
              ("occurrence_count", .vInt 7), ("metadata", .vStr "c")]⟩],
           [], 2⟩,
          ⟨"0", "WorkflowPattern", some (.vStr "coding"), some (.vInt 7),
           some (.vStr "c")⟩) ∧
    (filterByProp "intent_category" (.vStr "coding")
      (nFromType c5store "WorkflowPattern")).length = 2 ∧
    UpsertWorkflowPattern c5store c5inp ≠ .error .ambiguous := by
  have h1 : UpsertWorkflowPattern c5store c5inp =
      .ok (⟨[⟨0, "WorkflowPattern", [("intent_category", .vStr "coding"),
              ("occurrence_count", .vInt 7), ("metadata", .vStr "c")]⟩,
            ⟨1, "WorkflowPattern", [("intent_category", .vStr "coding"),
              ("occurrence_count", .vInt 7), ("metadata", .vStr "c")]⟩],
           [], 2⟩,
          ⟨"0", "WorkflowPattern", some (.vStr "coding"), some (.vInt 7),
           some (.vStr "c")⟩) := rfl
  refine ⟨h1, by decide, ?_⟩
  rw [h1]
  simp

theorem collectToObj_error_is_notFound (xs : List α) (e : GraphError)
    (h : collectToObj xs = .error e) : e = .notFound := by
  cases xs with
  | nil =>
    unfold collectToObj at h
    injection h with h2
    exact h2.symm
  | cons x xs => exact absurd h (by simp [collectToObj])

/-- C5 amended: when the match set holds more than one record the engine's
only behavior is the bulk one — upsert_n merges the given fields into
every matched record and returns all of them, ids preserved; the handler
never produces an Ambiguous error. -/
theorem c5_amended_bulk_merge_no_ambiguous (s : Store) (ms : List Node)
    (lbl : String) (fields : List (String × Value)) (h : ms ≠ []) :
    (upsertN s ms lbl fields).2 = ms.map (mergeNode fields) ∧
    (upsertN s ms lbl fields).2.map (fun n => n.id) = ms.map (fun n => n.id) ∧
    (∀ s2 d, UpsertWorkflowPattern s2 d ≠ .error .ambiguous) := by
  refine ⟨?_, ?_, ?_⟩
  · cases ms with
    | nil => exact absurd rfl h
    | cons m rest => rfl
  · cases ms with
    | nil => exact absurd rfl h
    | cons m rest =>
      show ((m :: rest).map (mergeNode fields)).map (fun n => n.id) = _
      rw [List.map_map]
      rfl
  · intro s2 d hcontra
    simp only [UpsertWorkflowPattern] at hcontra
    split at hcontra
    · rename_i e hco
      injection hcontra with h2
      have := collectToObj_error_is_notFound _ e hco
      rw [this] at h2
      simp at h2
    · split at hcontra
      · rename_i pat hco e2 hae
        injection hcontra with h2
        rcases addEdgesForPairs_error_is_new "UserHasPattern" _ _ e2 hae with
          ⟨msg, hmsg⟩
        rw [hmsg] at h2
        simp at h2
      · exact absurd hcontra (by simp)

/-- Witness for C5's amended theorem: a concrete singleton match set is
merged in bulk. -/
theorem c5_amended_witness :
    (upsertN ⟨[], [], 0⟩ [⟨3, "WorkflowPattern", []⟩] "WorkflowPattern"
        [("metadata", .vStr "x")]).2 =
      [⟨3, "WorkflowPattern", [("metadata", .vStr "x")]⟩] := by
  have h := (c5_amended_bulk_merge_no_ambiguous ⟨[], [], 0⟩
    [⟨3, "WorkflowPattern", []⟩] "WorkflowPattern"
    [("metadata", .vStr "x")] (by decide)).1
  rw [h]
  decide

/-! ## Claim C6 -/

/-- C6: the order_by_desc/range pipeline of GetSessionsByUser returns at
most end_range - start records, and repeated evaluation against the same
snapshot returns the same records in the same order. -/
theorem c6_order_range_bound_and_repeatable (s : Store)
    (d : Container.GetSessionsByUserInput) (r : List Container.SessionRetCU)
    (h : Container.GetSessionsByUser s d = .ok r) :
    r.length ≤ d.end_range - d.start ∧
    Container.GetSessionsByUser s d = Container.GetSessionsByUser s d := by
  refine ⟨?_, rfl⟩
  simp only [Container.GetSessionsByUser] at h
  injection h with h2
  rw [← h2, List.length_map]
  unfold rangeOp
  rw [List.length_take]
  exact min_le_left _ _

/-- Witness for C6: a concrete store with one matching session under
range(0, 5) yields one record, within the bound. -/
theorem c6_witness :
    ([⟨"0", "Session", none, none, none, none, none, none, none, none,
        some (.vDate 30), some (.vStr "u"), none⟩] :
      List Container.SessionRetCU).length ≤ 5 - 0 :=
  (c6_order_range_bound_and_repeatable
    ⟨[⟨0, "Session", [("user_key", .vStr "u"), ("start_time", .vDate 30)]⟩],
     [], 1⟩
    ⟨"u", 0, 5⟩
    [⟨"0", "Session", none, none, none, none, none, none, none, none,
        some (.vDate 30), some (.vStr "u"), none⟩]
    (by rfl)).1

/-! ## Claim C7 -/

/-- Counterexample for C7: the handler returns the flat three-element
session list — one entry per session — while the grouped shape the claim
describes has one entry per workflow_primary group (two); the handler
performs no partitioning. -/
theorem c7_counterexample :
    AggregateSessionsByWorkflow c7store ⟨"u1"⟩ = .ok c7flat ∧
    (aggregateSessionsByWorkflowSpec c7store ⟨"u1"⟩).length = 2 ∧
    c7flat.length ≠ (aggregateSessionsByWorkflowSpec c7store ⟨"u1"⟩).length :=
  ⟨rfl, by decide, by decide⟩

/-- C7 amended: AggregateSessionsByWorkflow returns the ungrouped list of
exactly the sessions reachable from a matching user along UserOwnsSession
edges; no group keys or counts appear in the response. -/
theorem c7_amended_flat_owned_sessions (s : Store)
    (d : AggregateSessionsByWorkflowInput) (r : List Node)
    (h : AggregateSessionsByWorkflow s d = .ok r) :
    ∀ n, n ∈ r ↔ ∃ u e, u ∈ s.nodes ∧ u.label = "User" ∧
        getProp u "external_id" = some (.vStr d.user_key) ∧
        e ∈ s.edges ∧ e.label = "UserOwnsSession" ∧ e.fromId = u.id ∧
        findNode s e.toId = some n := by
  simp only [AggregateSessionsByWorkflow] at h
  injection h with h2
  subst h2
  intro n
  simp only [outNode, List.mem_flatMap, List.mem_filterMap, List.mem_filter,
    filterByProp, nFromType, decide_eq_true_eq, propEq_eq_true_iff,
    Bool.and_eq_true]
  constructor
  · rintro ⟨u, ⟨⟨hu, hlbl⟩, hprop⟩, e, ⟨he, helbl, hefrom⟩, hfind⟩
    exact ⟨u, e, hu, hlbl, hprop, he, helbl, hefrom, hfind⟩
  · rintro ⟨u, e, hu, hlbl, hprop, he, helbl, hefrom, hfind⟩
    exact ⟨u, ⟨⟨hu, hlbl⟩, hprop⟩, e, ⟨he, helbl, hefrom⟩, hfind⟩

/-- Witness for C7's amended theorem: session 1 is in the returned list
because user 0 owns it through edge 10. -/
theorem c7_amended_witness :
    (⟨1, "Session", [("workflow_primary", .vStr "dev")]⟩ : Node) ∈ c7flat :=
  (c7_amended_flat_owned_sessions c7store ⟨"u1"⟩ c7flat rfl
    ⟨1, "Session", [("workflow_primary", .vStr "dev")]⟩).mpr
    ⟨⟨0, "User", [("external_id", .vStr "u1")]⟩,
     ⟨10, "UserOwnsSession", 0, 1⟩,
     by decide, rfl, by decide, by decide, rfl, rfl, by decide⟩

/-! ## Claim C4: upsert idempotence of UpsertUser -/

theorem matchingUsers_eq_filter (s : Store) (key : String) :
    matchingUsers s key = s.nodes.filter (userMatch key) := by
  unfold matchingUsers filterByProp nFromType userMatch
  rw [List.filter_filter]

theorem wfStore_iff (s : Store) :
    wfStore s = true ↔ (∀ n ∈ s.nodes, n.id < s.nextId) ∧
      (s.nodes.map (fun n => n.id)).Nodup := by
  simp [wfStore, List.all_eq_true, Bool.and_eq_true, decide_eq_true_eq]

theorem wf_insert (s : Store) (lbl : String) (fields : List (String × Value))
    (h : wfStore s = true) :
    wfStore ⟨s.nodes ++ [⟨s.nextId, lbl, fields⟩], s.edges, s.nextId + 1⟩
      = true := by
  rw [wfStore_iff] at h ⊢
  constructor
  · intro n hn
    rcases List.mem_append.mp hn with h1 | h1
    · exact Nat.lt_succ_of_lt (h.1 n h1)
    · have hn2 : n = ⟨s.nextId, lbl, fields⟩ := by simpa using h1
      subst hn2
      exact Nat.lt_succ_self _
  · rw [List.map_append]
    refine List.Nodup.append h.2 (List.nodup_singleton _) ?_
    intro a ha hb
    rcases List.mem_map.mp ha with ⟨n, hn, hid⟩
    have hlt := h.1 n hn
    rw [hid] at hlt
    simp at hb
    rw [hb] at hlt
    exact Nat.lt_irrefl _ hlt

theorem wf_map_id_preserving (s : Store) (f : Node → Node) (E : List Edge)
    (hf : ∀ n, (f n).id = n.id) :
    wfStore ⟨s.nodes.map f, E, s.nextId⟩ = wfStore s := by
  have hids : (s.nodes.map f).map (fun n => n.id) =
      s.nodes.map (fun n => n.id) := by
    rw [List.map_map]
    exact congrArg s.nodes.map (funext fun n => hf n)
  have hall : (s.nodes.map f).all (fun n => decide (n.id < s.nextId)) =
      s.nodes.all (fun n => decide (n.id < s.nextId)) := by
    rw [List.all_map]
    exact congrArg s.nodes.all (funext fun n => by
      simp only [Function.comp]
      rw [hf n])
  show ((s.nodes.map f).all _ && decide _) = _
  rw [hall, hids]
  rfl

theorem map_eq_self_of (xs : List Node) (f : Node → Node)
    (h : ∀ n ∈ xs, f n = n) : xs.map f = xs := by
  induction xs with
  | nil => rfl
  | cons a xs ih =>
    rw [List.map_cons, h a (List.mem_cons_self a xs),
      ih (fun n hn => h n (List.mem_cons_of_mem a hn))]

/-- The in-place update of a singleton-matched upsert: records other than
the matched one are untouched, so a singleton filter result stays a
singleton holding the merged record. -/
theorem filter_map_merge_single (p : Node → Bool) (upd : Node → Node)
    (m gm : Node) (hpg : p gm = true) (hm : upd m = gm)
    (hother : ∀ n, ¬ n.id = m.id → upd n = n) :
    ∀ xs : List Node, (xs.map (fun n => n.id)).Nodup →
      xs.filter p = [m] → (xs.map upd).filter p = [gm] := by
  intro xs
  induction xs with
  | nil => intro _ hf; exact absurd hf (by simp)
  | cons a xs ih =>
    intro hnd hf
    rw [List.map_cons, List.nodup_cons] at hnd
    by_cases hpa : p a = true
    · rw [List.filter_cons_of_pos hpa] at hf
      have ha : a = m := by
        have := (List.cons.injEq _ _ _ _).mp hf
        exact this.1
      have hrest : xs.filter p = [] := by
        have := (List.cons.injEq _ _ _ _).mp hf
        exact this.2
      subst ha
      rw [List.map_cons, hm, List.filter_cons_of_pos hpg]
      have hxs : xs.map upd = xs := by
        apply map_eq_self_of
        intro n hn
        apply hother
        intro hid
        exact hnd.1 (hid ▸ List.mem_map.mpr ⟨n, hn, rfl⟩)
      rw [hxs, hrest]
    · rw [List.filter_cons_of_neg (by simpa using hpa)] at hf
      have hmxs : m ∈ xs := by
        have hmf : m ∈ xs.filter p := by
          rw [hf]; exact List.mem_cons_self m []
        exact List.mem_of_mem_filter hmf
      have haid : ¬ a.id = m.id := by
        intro hid
        exact hnd.1 (by
          rw [hid]
          exact List.mem_map.mpr ⟨m, hmxs, rfl⟩)
      rw [List.map_cons, hother a haid,
        List.filter_cons_of_neg (by simpa using hpa)]
      exact ih hnd.2 hf

theorem upsertUserFields_ext (d : UpsertUserInput) :
    lookupProp (upsertUserFields d) "external_id" =
      some (.vStr d.external_id) := by
  unfold upsertUserFields
  rw [lookupProp_cons, if_pos rfl]

theorem upsertUserFields_md (d : UpsertUserInput) :
    lookupProp (upsertUserFields d) "metadata" = some (.vStr d.metadata) := by
  unfold upsertUserFields
  rw [lookupProp_cons, if_neg (by simp), lookupProp_cons, if_pos rfl]

theorem merged_user_ext (d : UpsertUserInput) (x : Node) :
    getProp (mergeNode (upsertUserFields d) x) "external_id" =
      some (.vStr d.external_id) := by
  show lookupProp (mergeProps x.props (upsertUserFields d)) "external_id" = _
  rw [lookupProp_mergeProps]
  have hrev : lookupProp (upsertUserFields d).reverse "external_id" =
      some (.vStr d.external_id) := by
    show lookupProp [("metadata", .vStr d.metadata),
      ("external_id", .vStr d.external_id)] "external_id" = _
    rw [lookupProp_cons, if_neg (by simp), lookupProp_cons, if_pos rfl]
  rw [hrev]

theorem merged_user_md (d : UpsertUserInput) (x : Node) :
    getProp (mergeNode (upsertUserFields d) x) "metadata" =
      some (.vStr d.metadata) := by
  show lookupProp (mergeProps x.props (upsertUserFields d)) "metadata" = _
  rw [lookupProp_mergeProps]
  have hrev : lookupProp (upsertUserFields d).reverse "metadata" =
      some (.vStr d.metadata) := by
    show lookupProp [("metadata", .vStr d.metadata),
      ("external_id", .vStr d.external_id)] "metadata" = _
    rw [lookupProp_cons, if_pos rfl]
  rw [hrev]

theorem upsertN_single_nodes (s : Store) (m : Node) (lbl : String)
    (fields : List (String × Value)) :
    (upsertN s [m] lbl fields).1.nodes =
      s.nodes.map (fun n =>
        if decide (m.id = n.id) = true then mergeNode fields n else n) := by
  simp only [upsertN, List.any_cons, List.any_nil, Bool.or_false]

/-- One run of UpsertUser from a well-formed store with at most one
existing match: it succeeds, keeps the store well-formed, leaves exactly
one matching User record — the returned one — whose properties carry the
given values, fresh on an empty match set and merged in place on a
singleton one. -/
theorem UpsertUser_step (s : Store) (d : UpsertUserInput)
    (hwf : wfStore s = true)
    (hle : (matchingUsers s d.external_id).length ≤ 1) :
    ∃ s1 n, UpsertUser s d = .ok (s1, serializeUser n) ∧
      wfStore s1 = true ∧
      matchingUsers s1 d.external_id = [n] ∧
      n.label = "User" ∧
      getProp n "external_id" = some (.vStr d.external_id) ∧
      getProp n "metadata" = some (.vStr d.metadata) ∧
      (∀ m, matchingUsers s d.external_id = [m] →
        n = mergeNode (upsertUserFields d) m) := by
  cases hcases : matchingUsers s d.external_id with
  | nil =>
    have hU : UpsertUser s d =
        match collectToObj (upsertN s (matchingUsers s d.external_id) "User"
            (upsertUserFields d)).2 with
        | .error e => .error e
        | .ok user =>
          .ok ((upsertN s (matchingUsers s d.external_id) "User"
            (upsertUserFields d)).1, serializeUser user) := rfl
    rw [hcases] at hU
    have hrun : UpsertUser s d =
        .ok ((upsertN s [] "User" (upsertUserFields d)).1,
          serializeUser (⟨s.nextId, "User", upsertUserFields d⟩ : Node)) := by
      rw [hU]
      rfl
    refine ⟨(upsertN s [] "User" (upsertUserFields d)).1,
      (⟨s.nextId, "User", upsertUserFields d⟩ : Node),
      hrun, ?_, ?_, rfl, upsertUserFields_ext d, upsertUserFields_md d, ?_⟩
    · exact wf_insert s "User" (upsertUserFields d) hwf
    · rw [matchingUsers_eq_filter]
      show (s.nodes ++ [(⟨s.nextId, "User", upsertUserFields d⟩ : Node)]).filter
        (userMatch d.external_id) = _
      rw [List.filter_append]
      have h0 : s.nodes.filter (userMatch d.external_id) = [] := by
        rw [← matchingUsers_eq_filter, hcases]
      have h1 : userMatch d.external_id
          ⟨s.nextId, "User", upsertUserFields d⟩ = true := by
        unfold userMatch
        rw [Bool.and_eq_true]
        refine ⟨?_, by simp⟩
        rw [propEq_eq_true_iff]
        exact upsertUserFields_ext d
      rw [h0, List.filter_cons_of_pos h1]
      rfl
    · intro m hm
      exact absurd hm (by simp)
  | cons m rest =>
    have hrest : rest = [] := by
      rw [hcases] at hle
      simpa using hle
    subst hrest
    have hU : UpsertUser s d =
        match collectToObj (upsertN s (matchingUsers s d.external_id) "User"
            (upsertUserFields d)).2 with
        | .error e => .error e
        | .ok user =>
          .ok ((upsertN s (matchingUsers s d.external_id) "User"
            (upsertUserFields d)).1, serializeUser user) := rfl
    rw [hcases] at hU
    have hrun : UpsertUser s d =
        .ok ((upsertN s [m] "User" (upsertUserFields d)).1,
          serializeUser (mergeNode (upsertUserFields d) m)) := by
      rw [hU]
      rfl
    have hmmem : userMatch d.external_id m = true := by
      have hmf : m ∈ s.nodes.filter (userMatch d.external_id) := by
        rw [← matchingUsers_eq_filter, hcases]
        exact List.mem_cons_self m []
      exact List.of_mem_filter hmf
    have hmmem2 : propEq "external_id" (.vStr d.external_id) m = true ∧
        decide (m.label = "User") = true := by
      rw [← Bool.and_eq_true]
      exact hmmem
    have hmlbl : m.label = "User" := by simpa using hmmem2.2
    have hfid : ∀ n, ((fun n =>
        if decide (m.id = n.id) = true then
          mergeNode (upsertUserFields d) n else n) n).id = n.id := by
      intro n
      by_cases hc : decide (m.id = n.id) = true <;> simp [hc, mergeNode]
    refine ⟨(upsertN s [m] "User" (upsertUserFields d)).1,
      mergeNode (upsertUserFields d) m, hrun, ?_, ?_, ?_,
      merged_user_ext d m, merged_user_md d m, ?_⟩
    · have h1 : (upsertN s [m] "User" (upsertUserFields d)).1 =
          ⟨s.nodes.map (fun n =>
            if decide (m.id = n.id) = true then
              mergeNode (upsertUserFields d) n else n), s.edges, s.nextId⟩ := by
        have hn := upsertN_single_nodes s m "User" (upsertUserFields d)
        have he := upsertN_edges_eq s [m] "User" (upsertUserFields d)
        have hx : (upsertN s [m] "User" (upsertUserFields d)).1.nextId =
            s.nextId := rfl
        cases hs : (upsertN s [m] "User" (upsertUserFields d)).1
        rw [hs] at hn he hx
        simp only at hn he hx
        rw [hn, he, hx]
      rw [h1, wf_map_id_preserving s _ s.edges hfid]
      exact hwf
    · rw [matchingUsers_eq_filter, upsertN_single_nodes]
      apply filter_map_merge_single (userMatch d.external_id) _ m
        (mergeNode (upsertUserFields d) m)
      · unfold userMatch
        rw [Bool.and_eq_true]
        constructor
        · rw [propEq_eq_true_iff]
          exact merged_user_ext d m
        · show decide ((mergeNode (upsertUserFields d) m).label = "User") = true
          have hl : (mergeNode (upsertUserFields d) m).label = m.label := rfl
          rw [hl, hmlbl]
          simp
      · simp
      · intro n hid
        have hdf : decide (m.id = n.id) = false := by
          rw [decide_eq_false_iff_not]
          exact fun h => hid h.symm
        rw [hdf]
        simp
      · exact ((wfStore_iff s).mp hwf).2
      · rw [← matchingUsers_eq_filter]
        exact hcases
    · exact hmlbl
    · intro m2 hm2
      have hmm : m = m2 := ((List.cons.injEq _ _ _ _).mp hm2).1
      rw [hmm]

/-- C4: running UpsertUser twice with the same external_id and metadata,
from any well-formed store with at most one pre-existing match, leaves
exactly one record matching the key, returns identical responses (same
record id) both times, and the record's properties equal the written
values. -/
theorem c4_upsert_user_idempotent (s : Store) (d : UpsertUserInput)
    (hwf : wfStore s = true)
    (hle : (matchingUsers s d.external_id).length ≤ 1) :
    ∃ s1 r1 s2 r2,
      UpsertUser s d = .ok (s1, r1) ∧
      UpsertUser s1 d = .ok (s2, r2) ∧
      r1 = r2 ∧
      (matchingUsers s2 d.external_id).length = 1 ∧
      (∀ n, n ∈ matchingUsers s2 d.external_id →
        getProp n "external_id" = some (.vStr d.external_id) ∧
        getProp n "metadata" = some (.vStr d.metadata)) := by
  rcases UpsertUser_step s d hwf hle with
    ⟨s1, n1, hrun1, hwf1, hm1, hlbl1, hext1, hmd1, _⟩
  rcases UpsertUser_step s1 d hwf1 (by rw [hm1]; simp) with
    ⟨s2, n2, hrun2, hwf2, hm2, hlbl2, hext2, hmd2, hmerge2⟩
  have hn2 : n2 = mergeNode (upsertUserFields d) n1 := hmerge2 n1 hm1
  have hid : n2.id = n1.id := by rw [hn2]; rfl
  have hlab : n2.label = n1.label := by rw [hn2]; rfl
  refine ⟨s1, serializeUser n1, s2, serializeUser n2, hrun1, hrun2, ?_, ?_, ?_⟩
  · unfold serializeUser
    rw [hext1, hext2, hmd1, hmd2, hid, hlab]
  · rw [hm2]
    rfl
  · intro n hn
    rw [hm2, List.mem_singleton] at hn
    subst hn
    exact ⟨hext2, hmd2⟩

/-- Witness for C4: two identical UpsertUser calls from the empty store
insert once, then merge onto the same record — the store and response are
fixed after the first call. -/
theorem c4_witness :
    UpsertUser (⟨[], [], 0⟩ : Store) ⟨"u1", "m1"⟩ =
      .ok (⟨[⟨0, "User", [("external_id", .vStr "u1"),
              ("metadata", .vStr "m1")]⟩], [], 1⟩,
           ⟨"0", "User", some (.vStr "u1"), some (.vStr "m1")⟩) ∧
    UpsertUser
        (⟨[⟨0, "User", [("external_id", .vStr "u1"),
            ("metadata", .vStr "m1")]⟩], [], 1⟩ : Store) ⟨"u1", "m1"⟩ =
      .ok (⟨[⟨0, "User", [("external_id", .vStr "u1"),
              ("metadata", .vStr "m1")]⟩], [], 1⟩,
           ⟨"0", "User", some (.vStr "u1"), some (.vStr "m1")⟩) ∧
    (matchingUsers
        (⟨[⟨0, "User", [("external_id", .vStr "u1"),
            ("metadata", .vStr "m1")]⟩], [], 1⟩ : Store) "u1").length = 1 := by
  rcases c4_upsert_user_idempotent ⟨[], [], 0⟩ ⟨"u1", "m1"⟩ (by decide)
      (by decide) with ⟨s1, r1, s2, r2, h1, h2, h3, h4, h5⟩
  exact ⟨rfl, rfl, rfl⟩

end HelixDB
